import Mathlib

/-!
Shallow embedding of the path-addressed store utilities of `field-form`
(`src/utils/valueUtil.ts`-style module, given as `src/unnamed/part_000`, and
`src/utils/typeUtil.ts`), together with theorems settling the specification
claims about them.

Modelling conventions:
* JavaScript values stored in a form store are modelled by `JSVal`:
  `undefined`, `null`, booleans, integers, strings, plain objects and arrays.
  Both objects and arrays are modelled as association lists from property
  keys (strings) to values, matching the JavaScript object model in which an
  array index `a[0]` is the property `"0"`; an `arr` value differs from an
  `obj` value only by its tag (its prototype), which is what
  `Array.isArray` / `Object.getPrototypeOf` observe.  Property insertion
  order is the list order: assigning an existing key keeps its position,
  assigning a fresh key appends it, as in JavaScript for non-integer keys.
* Path segments (`string | number` in the TypeScript source) are modelled by
  `Seg`.  `Seg.key` is the string a segment denotes as a JavaScript property
  name (numbers print in decimal).  The source writes through `lodash.set`
  (`lset`), whose key handling is embedded in `lsetStr`/`lsetSeg`: a number
  or a string without path syntax is one literal property; a string
  containing a dot or a bracketed segment that is not already an own
  property of the target is parsed as a deep path and written through
  `baseSet`, materializing arrays for index-shaped keys and objects
  otherwise.  Reads (`getValue`, property access) are always literal, as in
  the source.
* Property access on primitives (`(5)["a"]`, boxing) yields `undefined`;
  string character indexing is not modelled, since stores terminate in
  opaque scalar leaves.
* The mobx wrappers (`action`, `isObservable` with `oset`/`keys`) only batch
  change notifications; observable and plain containers have the same
  get/set/keys semantics, so the embedding is the unwrapped function body.
-/

/-- A path segment: `string | number` in the source (`InternalNamePath` is
`(string | number)[]`). -/
inductive Seg where
  | str (s : String)
  | num (n : Int)
deriving DecidableEq, Repr

/-- The JavaScript property key denoted by a segment: numbers are coerced to
their decimal string, as JavaScript property access does. -/
def Seg.key : Seg → String
  | .str s => s
  | .num n => toString n

/-- Whether a character list contains an opening bracket with a closing
bracket somewhere after it — the bracket alternative of lodash's
`reIsDeepProp` regex `/\.|\[(?:...)\]/` (an unpaired `[` matches nothing and
the key stays a plain property). -/
def hasBracketPair : List Char → Bool
  | [] => false
  | c :: rest => (c == '[' && rest.contains ']') || hasBracketPair rest

/-- Lodash's `isKey` test on a string key, independent of the target object:
a key is plain — assigned as one literal property — unless it contains a
dot or a bracketed segment (`reIsDeepProp`); otherwise lodash parses it as a
deep path. -/
def plainKey (k : String) : Bool :=
  !(k.toList.contains '.' || hasBracketPair k.toList)

/-- A segment that lodash `set` always writes as a single literal property:
every number (`isKey` is true for any number), and a string with no path
syntax. -/
def Seg.plain : Seg → Bool
  | .num _ => true
  | .str s => plainKey s

/-- JavaScript values that can appear in a store.  Objects and arrays are
association lists of string property keys; `arr` is distinguished from `obj`
only by its tag (prototype). -/
inductive JSVal where
  | undefined
  | null
  | bool (b : Bool)
  | num (n : Int)
  | str (s : String)
  | obj (props : List (String × JSVal))
  | arr (props : List (String × JSVal))
deriving Repr

/-- JavaScript truthiness of a modelled value (`!v` in the source is
`!(truthy v)`). -/
def truthy : JSVal → Bool
  | .undefined => false
  | .null => false
  | .bool b => b
  | .num n => n != 0
  | .str s => s != ""
  | .obj _ => true
  | .arr _ => true

/-- Test `typeof v === 'object'`: true for plain objects, arrays and `null`. -/
def isObjectType : JSVal → Bool
  | .obj _ => true
  | .arr _ => true
  | .null => true
  | _ => false

/-- Property read `props[k]` on an association list: first binding wins,
missing keys read as `undefined`. -/
def getProp : List (String × JSVal) → String → JSVal
  | [], _ => .undefined
  | (k', v) :: rest, k => if k' = k then v else getProp rest k

/-- Property write `props[k] = v`: an existing key keeps its position and is
overwritten, a fresh key is appended — JavaScript insertion order. -/
def setProp : List (String × JSVal) → String → JSVal → List (String × JSVal)
  | [], k, v => [(k, v)]
  | (k', v') :: rest, k, v =>
      if k' = k then (k, v) :: rest else (k', v') :: setProp rest k v

/-- Property read `v[k]` for a string key: objects and arrays look up the
key; primitives (boxed) and `null`/`undefined` yield `undefined` (the source
never indexes `null`/`undefined`, see `getValue`; string character indexing
is not modelled, as stores terminate in opaque scalar leaves). -/
def getKey : JSVal → String → JSVal
  | .obj props, k => getProp props k
  | .arr props, k => getProp props k
  | _, _ => .undefined

/-- Property access `current[seg]` by a path segment. -/
def JSVal.index (v : JSVal) (seg : Seg) : JSVal :=
  getKey v seg.key

/-- Whether `k` is an own property of the value (the `key in Object(object)`
part of lodash's `isKey`; the model's containers have no prototype
properties). -/
def hasOwnKey : List (String × JSVal) → String → Bool
  | [], _ => false
  | (k', _) :: rest, k => k' == k || hasOwnKey rest k

/-- Own-property test on a value: containers look up the key, primitives
have no modelled properties. -/
def hasOwnProp : JSVal → String → Bool
  | .obj props, k => hasOwnKey props k
  | .arr props, k => hasOwnKey props k
  | _, _ => false

/-- Lodash `isObject`: objects and arrays (the model has no functions inside
stores). -/
def lodashIsObject : JSVal → Bool
  | .obj _ => true
  | .arr _ => true
  | _ => false

/-- Lodash `isIndex` on a string key: a canonical non-negative decimal
integer, `/^(?:0|[1-9]\d*)$/` (the `MAX_SAFE_INTEGER` bound is not
modelled).  Decides whether a missing intermediate container is created as
an array or as an object. -/
def isIndexKey (k : String) : Bool :=
  match k.toList with
  | [] => false
  | c :: rest => (c :: rest).all Char.isDigit && (c != '0' || rest.isEmpty)

/-- Splitting a character list at every dot, keeping empty groups: the
dot-separated view of a key. -/
def splitDot : List Char → List (List Char)
  | [] => [[]]
  | c :: rest =>
      let r := splitDot rest
      if c == '.' then [] :: r
      else
        match r with
        | [] => [[c]]
        | g :: gs => (c :: g) :: gs

/-- Lodash `stringToPath` for dot-separated keys: `'a.b'` becomes
`['a', 'b']`.  Bracket/quote syntax is parsed by lodash with a richer
grammar; such keys reach this function only through non-plain string
segments, which every general theorem below excludes by hypothesis — the
concrete evaluations use dot keys, where this model is exact. -/
def stringToPath (k : String) : List String :=
  (splitDot k.toList).map List.asString

/-- A single literal property assignment (`assignValue`): objects and arrays
get the property set in place; any other target is returned unchanged, as
lodash `set` leaves non-objects alone. -/
def lassign : JSVal → String → JSVal → JSVal
  | .obj props, k, v => .obj (setProp props k v)
  | .arr props, k, v => .arr (setProp props k v)
  | store, _, _ => store

/-- Lodash `baseSet` over an already-parsed path: walk the keys, reusing an
existing object/array child and otherwise materializing `[]` when the next
key is an index and `{}` otherwise, then assign at the final key. -/
def baseSet : JSVal → List String → JSVal → JSVal
  | store, [], _ => store
  | store, [k], v => lassign store k v
  | store, k :: k2 :: rest, v =>
      let objValue := getKey store k
      let child :=
        if lodashIsObject objValue then objValue
        else if isIndexKey k2 then JSVal.arr [] else JSVal.obj []
      lassign store k (baseSet child (k2 :: rest) v)

/-- Embedding of `lset(store, key, v)` for a string key, following lodash
`set`: the key is a single literal property when it has no path syntax or
when it already exists as an own property of the target (`isKey`); otherwise
it is parsed as a deep path and written through `baseSet` (a non-object
target is returned unchanged). -/
def lsetStr (store : JSVal) (k : String) (v : JSVal) : JSVal :=
  if plainKey k || hasOwnProp store k then lassign store k v
  else if lodashIsObject store then baseSet store (stringToPath k) v
  else store

/-- Embedding of `lset(store, headPath, v)` for a raw path segment, as
`setValue` calls it: lodash `isKey` is true for every number, so a numeric
segment always assigns its decimal key literally; a string segment goes
through the path-syntax test of `lsetStr`. -/
def lsetSeg : JSVal → Seg → JSVal → JSVal
  | store, .num n, v => lassign store (Seg.key (.num n)) v
  | store, .str s, v => lsetStr store s v

/-- Type `NamePath`: what callers may pass as a path — `null`/`undefined`, one
bare segment, or a list of segments. -/
inductive NamePath where
  | nil
  | one (s : Seg)
  | list (l : List Seg)
deriving DecidableEq, Repr

/-- Function `toArray` from `src/utils/typeUtil.ts`: `undefined`/`null` become `[]`, an
array is returned as is, anything else is wrapped in a one-element array
(`isObservableArray` and `Array.isArray` agree on the model's arrays). -/
def toArray : NamePath → List Seg
  | .nil => []
  | .one s => [s]
  | .list l => l

/-- Test `current === null || current === undefined`, the break test of
`getValue`'s loop. -/
def isNullish : JSVal → Bool
  | .null => true
  | .undefined => true
  | _ => false

/-- The segment-walking loop of `getValue`: before consuming each segment the
current node is tested against `null`/`undefined` and the walk breaks there,
returning that node; otherwise the node is indexed by the segment. -/
def getValueAux : JSVal → List Seg → JSVal
  | current, [] => current
  | current, seg :: rest =>
      if isNullish current then current
      else getValueAux (current.index seg) rest

/-- Function `getValue(store, namePath)` from `src/unnamed/part_000` lines 17–30. -/
def getValue (store : JSVal) (namePath : NamePath) : JSVal :=
  getValueAux store (toArray namePath)

/-- The recursive worker of `setValue` (lines 32–60), after `toArray`
normalization.  Mirrors the source branch for branch: empty path replaces the
store with the value; falsy store materializes a fresh container — the source
tests `typeof headPath === 'number'` but builds a plain object `{}` in both
branches (`const clone = {}` / object literal); an object/array store is
mutated via `lset`; a truthy primitive store is discarded for a fresh
object. -/
def setValueAux : JSVal → List Seg → JSVal → JSVal
  | _, [], value => value
  | store, headPath :: tailPath, value =>
      if truthy store = false then
        match headPath with
        | .num _ => JSVal.obj [(headPath.key, setValueAux JSVal.null tailPath value)]
        | .str _ => JSVal.obj [(headPath.key, setValueAux JSVal.null tailPath value)]
      else if isObjectType store then
        lsetSeg store headPath (setValueAux (store.index headPath) tailPath value)
      else
        JSVal.obj [(headPath.key, setValueAux JSVal.null tailPath value)]

/-- Function `setValue(store, namePath, value)` from `src/unnamed/part_000`
lines 32–60 (the mobx `action` wrapper only batches notifications). -/
def setValue (store : JSVal) (namePath : NamePath) (value : JSVal) : JSVal :=
  setValueAux store (toArray namePath) value

/-- Function `cloneByNamePathList(store, namePathList)` from lines 62–70: starting from
`{}`, read each listed path from `store` and write it into the new store. -/
def cloneByNamePathList (store : JSVal) (namePathList : List (List Seg)) : JSVal :=
  namePathList.foldl
    (fun newStore namePath =>
      setValue newStore (.list namePath) (getValue store (.list namePath)))
    (JSVal.obj [])

/-- Predicate `isObject(obj)` from lines 76–78: `typeof obj === 'object'`, not `null`,
and prototype is exactly `Object.prototype` — in the model, precisely the
plain-object constructor (arrays have `Array.prototype`). -/
def isObject : JSVal → Bool
  | .obj _ => true
  | _ => false

/-- Enumeration `Object.keys` (and mobx `keys`): own enumerable keys of a container, in
property order; non-string primitives have none (for strings, whose
`Object.keys` enumerates character indices, see `strEntries`). -/
def jsKeys : JSVal → List String
  | .obj props => props.map Prod.fst
  | .arr props => props.map Prod.fst
  | _ => []

/-- The own enumerable entries of a string: `Object.keys('ab')` is
`['0', '1']` and each key holds the character at that index. -/
def strEntries (s : String) : List (String × Char) :=
  s.toList.enum.map fun p => (toString p.1, p.2)

/-- The `forEach` pass of `internalSetValues` specialised to a string patch:
every incoming value is a one-character string, never a plain object, so the
`recursive` test of the source loop is always false and each character is
assigned directly at its index key. -/
def setValuesStrProps : JSVal → List (String × Char) → JSVal
  | store, [] => store
  | store, (key, c) :: rest =>
      setValuesStrProps (lsetStr store key (JSVal.str (String.singleton c))) rest

mutual

/-- Function `internalSetValues(store, values)` from lines 84–101: falsy `values`
returns `store`; otherwise every own key of `values` is copied into `store`,
recursing when both the previous and the incoming value are plain objects
(the source's `value || {}` in the recursive call is `value` itself, since
the `isObject(value)` guard already forces `value` truthy).  The key
iteration is modelled by direct recursion over the property list of `values`
(`Object.keys` order); a string patch enumerates its character indices (the
empty string is falsy in the source and here yields the store unchanged
through the empty entry list). -/
def internalSetValues : JSVal → JSVal → JSVal
  | store, .obj vprops => setValuesProps store vprops
  | store, .arr vprops => setValuesProps store vprops
  | store, .str s => setValuesStrProps store (strEntries s)
  | store, _ => store
termination_by _ values => sizeOf values

/-- A single `forEach` pass of `internalSetValues` over the remaining
`(key, value)` entries of `values`, threading the mutated `store`; the match
on two plain objects is the source's `recursive = isObject(prevValue) &&
isObject(value)` test, and the write goes through the lodash `set`
embedding. -/
def setValuesProps : JSVal → List (String × JSVal) → JSVal
  | store, [] => store
  | store, (key, value) :: rest =>
      let prevValue := getKey store key
      let recursive := isObject prevValue && isObject value
      let newValue := if recursive then internalSetValues prevValue value else value
      setValuesProps (lsetStr store key newValue) rest
termination_by _ props => sizeOf props

end

/-- Function `setValues(store, ...restValues)` from lines 103–108: left fold of
`internalSetValues` over the patches. -/
def setValues (store : JSVal) (restValues : List JSVal) : JSVal :=
  restValues.foldl internalSetValues store

/-- Test `Array.isArray(v)` (equivalently, prototype is `Array.prototype`) on
modelled store values: true exactly for sequence-tagged containers. -/
def isArrayVal : JSVal → Bool
  | .arr _ => true
  | _ => false

/-- Strict equality `===` of two path segments: no coercion between numbers
and numeric strings. -/
def segEq : Seg → Seg → Bool
  | .str s, .str t => s == t
  | .num a, .num b => a == b
  | _, _ => false

/-- Function `matchNamePath(namePath, changedNamePath)` from lines 110–118: `false` if
either path is `null`/`undefined` or the lengths differ, else index-wise
strict equality of segments (`every`). -/
def matchNamePath : Option (List Seg) → Option (List Seg) → Bool
  | some namePath, some changedNamePath =>
      if namePath.length ≠ changedNamePath.length then false
      else (namePath.zip changedNamePath).all fun (u, c) => segEq u c
  | _, _ => false

/-- Function `containsNamePath(namePathList, namePath)` from lines 72–74. -/
def containsNamePath (namePathList : Option (List (List Seg)))
    (namePath : List Seg) : Bool :=
  match namePathList with
  | none => false
  | some l => l.any fun path => matchNamePath (some path) (some namePath)

/-- Function `move(array, moveIndex, toIndex)` from lines 169–196, with JavaScript
number indices as integers and `slice` as `drop`/`take`.  Out-of-range
indices return the array unchanged; `diff > 0` moves left, `diff < 0` moves
right, `diff = 0` returns the array. -/
def move {α : Type} (array : List α) (moveIndex toIndex : Int) : List α :=
  let length : Int := array.length
  if moveIndex < 0 ∨ moveIndex ≥ length ∨ toIndex < 0 ∨ toIndex ≥ length then
    array
  else
    let f := moveIndex.toNat
    let t := toIndex.toNat
    let item := (array.get? f).toList
    let diff : Int := moveIndex - toIndex
    if diff > 0 then
      array.take t ++ item ++ ((array.drop t).take (f - t)) ++ array.drop (f + 1)
    else if diff < 0 then
      array.take f ++ ((array.drop (f + 1)).take (t - f)) ++ item ++ array.drop (t + 1)
    else
      array

/-- Shallow values as compared by `isSimilar` (lines 122–148): the property
values of the two compared objects.  `isSimilar` only ever applies `===` or
`typeof v === 'function'` to such values, so a nested non-function object is
opaque and identified by a reference id, and a function likewise; `===` on
`fn`/`ref` values is reference-id equality. -/
inductive SVal where
  | undefined
  | null
  | bool (b : Bool)
  | num (n : Int)
  | str (s : String)
  | fn (id : Nat)
  | ref (id : Nat)
deriving DecidableEq, Repr

/-- Strict equality `===` on shallow property values: structural on
primitives, reference-id equality on functions and nested objects. -/
def svStrictEq : SVal → SVal → Bool
  | .undefined, .undefined => true
  | .null, .null => true
  | .bool a, .bool b => a == b
  | .num a, .num b => a == b
  | .str a, .str b => a == b
  | .fn i, .fn j => i == j
  | .ref i, .ref j => i == j
  | _, _ => false

/-- Test `typeof v === 'function'` on a shallow property value. -/
def SVal.isFunction : SVal → Bool
  | .fn _ => true
  | _ => false

/-- Property read `o[k]` on an object compared by `isSimilar`: missing keys
read as `undefined`. -/
def getPropS : List (String × SVal) → String → SVal
  | [], _ => .undefined
  | (k', v) :: rest, k => if k' = k then v else getPropS rest k

/-- A top-level argument of `isSimilar` (`SimilarObject = string | number |
{}` in the source): a primitive, a function, or an object carrying a
reference id and its own enumerable properties. -/
inductive SimVal where
  | undefined
  | null
  | bool (b : Bool)
  | num (n : Int)
  | str (s : String)
  | fn (id : Nat)
  | object (id : Nat) (props : List (String × SVal))
deriving DecidableEq, Repr

/-- JavaScript truthiness of a top-level `isSimilar` argument. -/
def truthySim : SimVal → Bool
  | .undefined => false
  | .null => false
  | .bool b => b
  | .num n => n != 0
  | .str s => s != ""
  | .fn _ => true
  | .object _ _ => true

/-- Strict equality `===` of two top-level `isSimilar` arguments: structural
on primitives, reference-id equality on functions and objects. -/
def simStrictEq : SimVal → SimVal → Bool
  | .undefined, .undefined => true
  | .null, .null => true
  | .bool a, .bool b => a == b
  | .num a, .num b => a == b
  | .str a, .str b => a == b
  | .fn i, .fn j => i == j
  | .object i _, .object j _ => i == j
  | _, _ => false

/-- Test `typeof v === 'object'` on a top-level `isSimilar` argument: objects
and `null`. -/
def simIsObjectType : SimVal → Bool
  | .object _ _ => true
  | .null => true
  | _ => false

/-- Function `isSimilar(source, target)` from lines 122–148, guard for guard:
identical arguments are similar; exactly one falsy is dissimilar; remaining
falsy or non-object arguments are dissimilar; two objects are compared over
the union of their own key sets (`new Set([...sourceKeys, ...targetKeys])`,
modelled by `List.dedup` of the concatenated key lists — `every` over a key
set does not depend on iteration order or multiplicity), each key passing if
both values are functions or if the values are `===`-equal.  The final match
arm for non-objects is unreachable: the preceding guard already returned
`false` unless both arguments are truthy objects. -/
def isSimilar (source target : SimVal) : Bool :=
  if simStrictEq source target then true
  else if (!truthySim source && truthySim target)
      || (truthySim source && !truthySim target) then false
  else if !truthySim source || !truthySim target
      || !simIsObjectType source || !simIsObjectType target then false
  else
    match source, target with
    | .object _ sprops, .object _ tprops =>
        ((sprops.map Prod.fst ++ tprops.map Prod.fst).dedup).all fun key =>
          let sourceValue := getPropS sprops key
          let targetValue := getPropS tprops key
          (sourceValue.isFunction && targetValue.isFunction)
            || svStrictEq sourceValue targetValue
    | _, _ => false

/-- Reading a key through `setProp` after writing that same key yields the
written value, for every association list (an existing binding is
overwritten in place, a missing one is appended). -/
theorem getProp_setProp_self (props : List (String × JSVal)) (k : String)
    (v : JSVal) : getProp (setProp props k v) k = v := by
  induction props with
  | nil => simp [setProp, getProp]
  | cons hd tl ih =>
      obtain ⟨k', v'⟩ := hd
      by_cases h : k' = k
      · simp [setProp, h, getProp]
      · simp [setProp, h, getProp, ih]

/-- Walking a freshly written path of plain segments reads back the written
value, for every starting store: a plain segment makes the lodash write a
single literal property, which the literal read then finds. -/
theorem getValueAux_setValueAux (p : List Seg) :
    ∀ (store v : JSVal), (∀ s ∈ p, Seg.plain s = true) →
      getValueAux (setValueAux store p v) p = v := by
  induction p with
  | nil =>
      intro store v _
      rfl
  | cons head tail ih =>
      intro store v hp
      have hhead : Seg.plain head = true := hp head (by simp)
      have ihx : ∀ (store v : JSVal),
          getValueAux (setValueAux store tail v) tail = v :=
        fun store v => ih store v (fun s hs => hp s (by simp [hs]))
      cases store <;> cases head <;>
        simp_all [setValueAux, truthy, isObjectType, getValueAux, isNullish,
          JSVal.index, getKey, lsetSeg, lsetStr, lassign, Seg.plain,
          getProp_setProp_self, Seg.key, getProp]

/-- C2 counterexample: the round-trip fails at the path `['a.b']` on an
object store — `setValue` writes through lodash `set`, which parses the
dotted key as a deep path and produces `{a: {b: 1}}`, while `getValue` reads
the literal property `'a.b'` and finds `undefined`, not the written value. -/
theorem getValue_setValue_roundTrip_cex :
    setValue (JSVal.obj []) (.list [Seg.str "a.b"]) (JSVal.num 1)
      = JSVal.obj [("a", JSVal.obj [("b", JSVal.num 1)])]
    ∧ getValue (setValue (JSVal.obj []) (.list [Seg.str "a.b"]) (JSVal.num 1))
        (.list [Seg.str "a.b"]) = JSVal.undefined
    ∧ JSVal.undefined ≠ JSVal.num 1 :=
  ⟨rfl, rfl, fun h => JSVal.noConfusion h⟩

/-- C2 (amended): get after set round-trips for every path all of whose
segments lodash writes as single literal properties — every numeric segment,
and every string segment free of lodash path syntax (no dot, no bracketed
segment) — for every starting store (including `null`) and every value:
`getValue(setValue(store, p, v), p) === v`. -/
theorem getValue_setValue_roundTrip_plain (store v : JSVal)
    (namePath : NamePath) (hp : ∀ s ∈ toArray namePath, Seg.plain s = true) :
    getValue (setValue store namePath v) namePath = v :=
  getValueAux_setValueAux (toArray namePath) store v hp

/-- Witness for the amended C2 at concrete inputs: a null store and the
plain path `['a', 0]` round-trip the written value. -/
theorem getValue_setValue_roundTrip_plain_witness :
    getValue (setValue JSVal.null (.list [Seg.str "a", Seg.num 0])
        (JSVal.str "x")) (.list [Seg.str "a", Seg.num 0]) = JSVal.str "x" :=
  getValue_setValue_roundTrip_plain JSVal.null (JSVal.str "x")
    (.list [Seg.str "a", Seg.num 0]) (by decide)

/-- C9: an empty path — or a `null` path, which `toArray` normalizes to the
empty path — is an identity read: `getValue(s, [])` returns `s` itself for
every store value `s`, containers and non-containers alike. -/
theorem getValue_empty_path_identity (s : JSVal) :
    getValue s (.list []) = s ∧ getValue s .nil = s :=
  ⟨rfl, rfl⟩

/-- C4: `getValue` walks one segment at a time and, as soon as the current
node is `null`/`undefined` with path segments still remaining, returns that
node unchanged without indexing further; in particular a `null`/`undefined`
store is returned as is for every path.  All functions are total, so no walk
can throw. -/
theorem getValue_nullish_shortCircuit :
    (∀ (current : JSVal) (seg : Seg) (rest : List Seg),
        isNullish current = true → getValueAux current (seg :: rest) = current)
    ∧ (∀ namePath : NamePath, getValue JSVal.null namePath = JSVal.null)
    ∧ (∀ namePath : NamePath, getValue JSVal.undefined namePath = JSVal.undefined) := by
  refine ⟨?_, ?_, ?_⟩
  · intro current seg rest h
    simp [getValueAux, h]
  · intro np
    cases np with
    | nil => rfl
    | one s => rfl
    | list l => cases l with
      | nil => rfl
      | cons s rest => rfl
  · intro np
    cases np with
    | nil => rfl
    | one s => rfl
    | list l => cases l with
      | nil => rfl
      | cons s rest => rfl

/-- Witness for C4 at concrete inputs: a `null` node short-circuits a
two-segment walk, and `null`/`undefined` stores survive whole paths. -/
theorem getValue_nullish_shortCircuit_witness :
    getValueAux JSVal.null [Seg.str "a", Seg.str "b"] = JSVal.null
    ∧ getValue JSVal.null (.list [Seg.str "a", Seg.str "b"]) = JSVal.null
    ∧ getValue JSVal.undefined (.one (Seg.num 3)) = JSVal.undefined :=
  ⟨getValue_nullish_shortCircuit.1 JSVal.null (Seg.str "a") [Seg.str "b"] rfl,
   getValue_nullish_shortCircuit.2.1 (.list [Seg.str "a", Seg.str "b"]),
   getValue_nullish_shortCircuit.2.2 (.one (Seg.num 3))⟩

/-- C1 counterexample: `setValue(null, ['a', 0], 'x')` evaluates to
`{a: {0: 'x'}}` — the node at key `'a'` is a plain mapping whose key is the
string `"0"`, not a sequence: the falsy-store branch of `setValue` builds a
plain object `{}` even when the head segment is numeric (source lines
42–45), so no array is ever constructed. -/
theorem setValue_numeric_head_not_sequence_cex :
    setValue JSVal.null (.list [Seg.str "a", Seg.num 0]) (JSVal.str "x")
      = JSVal.obj [("a", JSVal.obj [("0", JSVal.str "x")])]
    ∧ isArrayVal ((setValue JSVal.null (.list [Seg.str "a", Seg.num 0])
        (JSVal.str "x")).index (Seg.str "a")) = false :=
  ⟨rfl, rfl⟩

/-- C1 (amended): when `setValue` is called with a falsy store and a
non-empty path, it constructs a new mapping-keyed container regardless of
the head segment's type — the numeric-head branch also builds a mapping,
keyed by the decimal string of the number — holding the recursive result at
the head key; in particular `setValue(null, ['a', 0], v)` produces
`{a: {0: v}}`, whose node at `'a'` is a mapping, not a sequence. -/
theorem setValue_falsy_store_builds_mapping :
    (∀ (store : JSVal) (head : Seg) (tail : List Seg) (v : JSVal),
        truthy store = false →
        setValue store (.list (head :: tail)) v
          = JSVal.obj [(head.key, setValue JSVal.null (.list tail) v)])
    ∧ ∀ v : JSVal,
        setValue JSVal.null (.list [Seg.str "a", Seg.num 0]) v
          = JSVal.obj [("a", JSVal.obj [("0", v)])] := by
  constructor
  · intro store head tail v h
    cases head <;> simp [setValue, toArray, setValueAux, h]
  · intro v
    rfl

/-- Witness for the amended C1 at concrete inputs: a falsy store with a
numeric head segment yields a mapping keyed by `"1"`. -/
theorem setValue_falsy_store_builds_mapping_witness :
    setValue JSVal.null (.list [Seg.num 1, Seg.num 0]) (JSVal.num 7)
      = JSVal.obj [(Seg.key (Seg.num 1),
          setValue JSVal.null (.list [Seg.num 0]) (JSVal.num 7))]
    ∧ setValue JSVal.null (.list [Seg.str "a", Seg.num 0]) (JSVal.num 7)
      = JSVal.obj [("a", JSVal.obj [("0", JSVal.num 7)])] :=
  ⟨setValue_falsy_store_builds_mapping.1 JSVal.null (Seg.num 1) [Seg.num 0]
      (JSVal.num 7) rfl,
   setValue_falsy_store_builds_mapping.2 (JSVal.num 7)⟩

/-- A key whose read yields a plain object is an own key of the property
list (a missing key reads as `undefined`). -/
theorem hasOwnKey_of_getProp_obj {props : List (String × JSVal)} {k : String}
    {pp : List (String × JSVal)} (h : getProp props k = JSVal.obj pp) :
    hasOwnKey props k = true := by
  induction props with
  | nil => exact JSVal.noConfusion h
  | cons hd tl ih =>
      obtain ⟨k', v'⟩ := hd
      by_cases hk : k' = k
      · simp [hasOwnKey, hk]
      · simp only [getProp, if_neg hk] at h
        simp [hasOwnKey, ih h]

/-- C3 counterexample: the claim's "otherwise the incoming value replaces
the existing one" fails for the patch key `'a.b'` absent from the store —
`internalSetValues` writes through lodash `set`, which parses the dotted key
as a deep path, so the incoming array lands at `{a: {b: …}}` and the key
`'a.b'` itself still reads `undefined` instead of the incoming value. -/
theorem setValues_merge_policy_cex :
    setValues (JSVal.obj [])
        [JSVal.obj [("a.b", JSVal.arr [("0", JSVal.num 9)])]]
      = JSVal.obj [("a", JSVal.obj [("b", JSVal.arr [("0", JSVal.num 9)])])]
    ∧ getKey (setValues (JSVal.obj [])
        [JSVal.obj [("a.b", JSVal.arr [("0", JSVal.num 9)])]]) "a.b"
      = JSVal.undefined := by
  have hp : plainKey "a.b" = false := by decide
  have hsp : stringToPath "a.b" = ["a", "b"] := by decide
  have hidx : isIndexKey "b" = false := by decide
  have hax : List.asString ['a'] = "a" := rfl
  have hbx : List.asString ['b'] = "b" := rfl
  constructor
  · simp [setValues, internalSetValues, setValuesProps, lsetStr, hp, hsp,
      hidx, hax, hbx, hasOwnProp, hasOwnKey, lodashIsObject, baseSet, lassign,
      setProp, getKey, getProp, isObject]
  · simp [setValues, internalSetValues, setValuesProps, lsetStr, hp, hsp,
      hidx, hax, hbx, hasOwnProp, hasOwnKey, lodashIsObject, baseSet, lassign,
      setProp, getKey, getProp, isObject]

/-- C3 (amended): the merge of `setValues` follows the claimed per-key
policy for every patch key that lodash writes as one literal property — a
key without path syntax, or one already present in the target: if both the
existing and incoming values are plain data objects they merge recursively,
otherwise the incoming value replaces the existing one wholesale, so arrays
are never element-merged.  Concretely, `setValues({a:1,b:{c:2}},
{a:4,b:{d:5}})` yields `{a:4,b:{c:2,d:5}}` and `setValues({a:[1,2,3]},
{a:[9]})` yields `{a:[9]}`. -/
theorem setValues_merge_policy :
    (setValues
        (JSVal.obj [("a", JSVal.num 1), ("b", JSVal.obj [("c", JSVal.num 2)])])
        [JSVal.obj [("a", JSVal.num 4), ("b", JSVal.obj [("d", JSVal.num 5)])]]
      = JSVal.obj [("a", JSVal.num 4),
          ("b", JSVal.obj [("c", JSVal.num 2), ("d", JSVal.num 5)])])
    ∧ (setValues
        (JSVal.obj [("a", JSVal.arr
            [("0", JSVal.num 1), ("1", JSVal.num 2), ("2", JSVal.num 3)])])
        [JSVal.obj [("a", JSVal.arr [("0", JSVal.num 9)])]]
      = JSVal.obj [("a", JSVal.arr [("0", JSVal.num 9)])])
    ∧ (∀ (sprops aprops : List (String × JSVal)) (k : String),
        plainKey k = true →
        (internalSetValues (JSVal.obj sprops)
            (JSVal.obj [(k, JSVal.arr aprops)])).index (Seg.str k)
          = JSVal.arr aprops)
    ∧ (∀ (sprops pprops vprops : List (String × JSVal)) (k : String),
        getProp sprops k = JSVal.obj pprops →
        (internalSetValues (JSVal.obj sprops)
            (JSVal.obj [(k, JSVal.obj vprops)])).index (Seg.str k)
          = internalSetValues (JSVal.obj pprops) (JSVal.obj vprops)) := by
  have ha : plainKey "a" = true := by decide
  have hb : plainKey "b" = true := by decide
  have hd : plainKey "d" = true := by decide
  refine ⟨?_, ?_, ?_, ?_⟩
  · simp [setValues, internalSetValues, setValuesProps, lsetStr, lassign,
      ha, hb, hd, setProp, getProp, getKey, JSVal.index, isObject, Seg.key]
  · simp [setValues, internalSetValues, setValuesProps, lsetStr, lassign,
      ha, setProp, getProp, getKey, JSVal.index, isObject, Seg.key]
  · intro sprops aprops k hk
    simp [internalSetValues, setValuesProps, JSVal.index, getKey, Seg.key,
      isObject, lsetStr, hk, lassign, getProp_setProp_self]
  · intro sprops pprops vprops k h
    have hown : hasOwnKey sprops k = true := hasOwnKey_of_getProp_obj h
    simp [internalSetValues, setValuesProps, JSVal.index, getKey, Seg.key, h,
      isObject, lsetStr, hasOwnProp, hown, lassign, getProp_setProp_self]

/-- Witness for the amended C3 at concrete inputs: an incoming array
replaces the previous array at its (plain) key, and two plain objects at a
key merge recursively. -/
theorem setValues_merge_policy_witness :
    ((internalSetValues
        (JSVal.obj [("a", JSVal.arr [("0", JSVal.num 1)])])
        (JSVal.obj [("a", JSVal.arr [("0", JSVal.num 9)])])).index (Seg.str "a")
      = JSVal.arr [("0", JSVal.num 9)])
    ∧ ((internalSetValues
        (JSVal.obj [("b", JSVal.obj [("c", JSVal.num 2)])])
        (JSVal.obj [("b", JSVal.obj [("d", JSVal.num 5)])])).index (Seg.str "b")
      = internalSetValues (JSVal.obj [("c", JSVal.num 2)])
          (JSVal.obj [("d", JSVal.num 5)])) :=
  ⟨setValues_merge_policy.2.2.1 [("a", JSVal.arr [("0", JSVal.num 1)])]
      [("0", JSVal.num 9)] "a" (by decide),
   setValues_merge_policy.2.2.2 [("b", JSVal.obj [("c", JSVal.num 2)])]
      [("c", JSVal.num 2)] [("d", JSVal.num 5)] "b" rfl⟩


/-- A property write either leaves the key list unchanged (existing key) or
appends exactly the written key (fresh key). -/
theorem keys_setProp (props : List (String × JSVal)) (k : String) (v : JSVal) :
    (setProp props k v).map Prod.fst = props.map Prod.fst
    ∨ (setProp props k v).map Prod.fst = props.map Prod.fst ++ [k] := by
  induction props with
  | nil => right; simp [setProp]
  | cons hd tl ih =>
      obtain ⟨k₀, v₀⟩ := hd
      by_cases hk : k₀ = k
      · left; simp [setProp, hk]
      · rcases ih with h | h
        · left; simp [setProp, hk, h]
        · right; simp [setProp, hk, h]

/-- A key present after a property write was either already present or is
the written key. -/
theorem mem_keys_setProp {props : List (String × JSVal)} {k k' : String}
    {v : JSVal} (h : k' ∈ (setProp props k v).map Prod.fst) :
    k' ∈ props.map Prod.fst ∨ k' = k := by
  rcases keys_setProp props k v with he | he
  · rw [he] at h
    exact Or.inl h
  · rw [he] at h
    rcases List.mem_append.mp h with h' | h'
    · exact Or.inl h'
    · exact Or.inr (by simpa using h')

/-- Writing a non-empty path into any non-container value materializes a
fresh singleton object at the head key. -/
theorem setValueAux_nonContainer {ns : JSVal} (hns : ∀ props,
      ns ≠ JSVal.obj props ∧ ns ≠ JSVal.arr props)
    (hseg : Seg) (t : List Seg) (v : JSVal) :
    setValueAux ns (hseg :: t) v
      = JSVal.obj [(hseg.key, setValueAux JSVal.null t v)] := by
  cases ns with
  | obj props => exact absurd rfl (hns props).1
  | arr props => exact absurd rfl (hns props).2
  | _ => cases hseg <;> simp [setValueAux, truthy, isObjectType]

/-- Writing a non-empty path whose head segment is plain into a store adds
at most the head segment's key to the store's top-level key set (a plain
head makes the lodash write literal at the top level). -/
theorem mem_jsKeys_setValueAux {ns : JSVal} {hseg : Seg} {t : List Seg}
    {v : JSVal} {k : String} (hplain : Seg.plain hseg = true)
    (h : k ∈ jsKeys (setValueAux ns (hseg :: t) v)) :
    k ∈ jsKeys ns ∨ k = hseg.key := by
  cases ns with
  | obj props =>
      have he : setValueAux (JSVal.obj props) (hseg :: t) v
          = JSVal.obj (setProp props hseg.key
              (setValueAux ((JSVal.obj props).index hseg) t v)) := by
        cases hseg with
        | num n => rfl
        | str s =>
            have hps : plainKey s = true := by simpa [Seg.plain] using hplain
            simp [setValueAux, truthy, isObjectType, lsetSeg, lsetStr, hps,
              lassign, Seg.key, JSVal.index, getKey]
      rw [he] at h
      simp only [jsKeys] at h ⊢
      exact mem_keys_setProp h
  | arr props =>
      have he : setValueAux (JSVal.arr props) (hseg :: t) v
          = JSVal.arr (setProp props hseg.key
              (setValueAux ((JSVal.arr props).index hseg) t v)) := by
        cases hseg with
        | num n => rfl
        | str s =>
            have hps : plainKey s = true := by simpa [Seg.plain] using hplain
            simp [setValueAux, truthy, isObjectType, lsetSeg, lsetStr, hps,
              lassign, Seg.key, JSVal.index, getKey]
      rw [he] at h
      simp only [jsKeys] at h ⊢
      exact mem_keys_setProp h
  | undefined =>
      rw [setValueAux_nonContainer (by simp) hseg t v] at h
      simp [jsKeys] at h
      exact Or.inr h
  | null =>
      rw [setValueAux_nonContainer (by simp) hseg t v] at h
      simp [jsKeys] at h
      exact Or.inr h
  | bool b =>
      rw [setValueAux_nonContainer (by simp) hseg t v] at h
      simp [jsKeys] at h
      exact Or.inr h
  | num n =>
      rw [setValueAux_nonContainer (by simp) hseg t v] at h
      simp [jsKeys] at h
      exact Or.inr h
  | str s =>
      rw [setValueAux_nonContainer (by simp) hseg t v] at h
      simp [jsKeys] at h
      exact Or.inr h

/-- Folding clone writes for a list of non-empty plain-segment paths over
any accumulator only ever adds head-segment keys to the accumulator's
top-level key set. -/
theorem mem_jsKeys_clone_foldl (store : JSVal) (ps : List (List Seg)) :
    ∀ (ns : JSVal) (k : String), (∀ p ∈ ps, p ≠ []) →
      (∀ p ∈ ps, ∀ s ∈ p, Seg.plain s = true) →
      k ∈ jsKeys (ps.foldl
        (fun newStore namePath =>
          setValue newStore (.list namePath) (getValue store (.list namePath)))
        ns) →
      k ∈ jsKeys ns
        ∨ ∃ p ∈ ps, ∃ (hh : Seg) (tt : List Seg), p = hh :: tt ∧ k = hh.key := by
  induction ps with
  | nil =>
      intro ns k _ _ h
      exact Or.inl h
  | cons p ps ih =>
      intro ns k hne hpl h
      obtain ⟨hh, tt, rfl⟩ : ∃ hh tt, p = hh :: tt := by
        cases p with
        | nil => exact absurd rfl (hne [] (by simp))
        | cons hh tt => exact ⟨hh, tt, rfl⟩
      have hhp : Seg.plain hh = true := hpl (hh :: tt) (by simp) hh (by simp)
      simp only [List.foldl_cons] at h
      rcases ih _ k (fun q hq => hne q (by simp [hq]))
          (fun q hq => hpl q (by simp [hq])) h with h' | h'
      · rcases mem_jsKeys_setValueAux hhp h' with h'' | h''
        · exact Or.inl h''
        · exact Or.inr ⟨hh :: tt, by simp, hh, tt, rfl, h''⟩
      · obtain ⟨q, hq, hhq, ttq, hq1, hq2⟩ := h'
        exact Or.inr ⟨q, by simp [hq], hhq, ttq, hq1, hq2⟩

/-- C5 counterexample: for the store `{'a.b': 7}` and the path list
`[['a.b']]`, the value read at the listed path is `7`, but the clone writes
it through lodash `set`, which parses the dotted key as a deep path — the
result is `{a: {b: 7}}`: its only top-level key is `'a'`, not the head key
`'a.b'` of the listed path, and reading the clone at the listed path yields
`undefined`, so the clone does not contain the value reachable at the
listed path. -/
theorem cloneByNamePathList_exact_cex :
    cloneByNamePathList (JSVal.obj [("a.b", JSVal.num 7)]) [[Seg.str "a.b"]]
      = JSVal.obj [("a", JSVal.obj [("b", JSVal.num 7)])]
    ∧ jsKeys (cloneByNamePathList (JSVal.obj [("a.b", JSVal.num 7)])
        [[Seg.str "a.b"]]) = ["a"]
    ∧ ("a" : String) ≠ "a.b"
    ∧ getValue (cloneByNamePathList (JSVal.obj [("a.b", JSVal.num 7)])
        [[Seg.str "a.b"]]) (.list [Seg.str "a.b"]) = JSVal.undefined :=
  ⟨rfl, rfl, by decide, rfl⟩

/-- C5 (amended): `cloneByNamePathList` copies exactly the listed paths,
for paths made of plain segments (numbers, or strings without lodash path
syntax).  For the claim's store `{a:1, b:{c:2, d:3}}` and paths
`[['b','c']]` the result is precisely `{b:{c:2}}` — no key `a`, no key `d`;
in general (for non-empty plain-segment paths) every top-level key of the
result is the head key of some listed path, so unlisted branches and their
intermediate containers are absent; and paths are processed in list order,
each later path being written on top of the store built from the earlier
ones, so a repeated path is simply overwritten by its later occurrence. -/
theorem cloneByNamePathList_exact :
    (cloneByNamePathList
        (JSVal.obj [("a", JSVal.num 1),
          ("b", JSVal.obj [("c", JSVal.num 2), ("d", JSVal.num 3)])])
        [[Seg.str "b", Seg.str "c"]]
      = JSVal.obj [("b", JSVal.obj [("c", JSVal.num 2)])])
    ∧ (∀ (store : JSVal) (ps : List (List Seg)),
        (∀ p ∈ ps, p ≠ []) →
        (∀ p ∈ ps, ∀ s ∈ p, Seg.plain s = true) →
        ∀ k ∈ jsKeys (cloneByNamePathList store ps),
          ∃ p ∈ ps, ∃ (hh : Seg) (tt : List Seg), p = hh :: tt ∧ k = hh.key)
    ∧ (∀ (store : JSVal) (ps : List (List Seg)) (p : List Seg),
        cloneByNamePathList store (ps ++ [p])
          = setValue (cloneByNamePathList store ps) (.list p)
              (getValue store (.list p))) := by
  refine ⟨rfl, ?_, ?_⟩
  · intro store ps hne hpl k h
    rcases mem_jsKeys_clone_foldl store ps (JSVal.obj []) k hne hpl h with h' | h'
    · simp [jsKeys] at h'
    · exact h'
  · intro store ps p
    simp [cloneByNamePathList]

/-- Witness for the amended C5 at a concrete input: the sole top-level key
`"b"` of the cloned store is the head key of the one listed (plain) path. -/
theorem cloneByNamePathList_exact_witness :
    ∃ p ∈ [[Seg.str "b", Seg.str "c"]], ∃ (hh : Seg) (tt : List Seg),
      p = hh :: tt ∧ "b" = hh.key := by
  refine cloneByNamePathList_exact.2.1
    (JSVal.obj [("a", JSVal.num 1),
      ("b", JSVal.obj [("c", JSVal.num 2), ("d", JSVal.num 3)])])
    [[Seg.str "b", Seg.str "c"]] ?_ ?_ "b" ?_
  · decide
  · decide
  · show ("b" : String) ∈ ["b"]
    simp

/-- Strict segment equality holds exactly on equal segments: a number never
equals a string segment. -/
theorem segEq_iff (u c : Seg) : segEq u c = true ↔ u = c := by
  cases u <;> cases c <;> simp [segEq]

/-- Over equal-length lists, the zipped `every` of strict segment equality
holds exactly when the lists are equal. -/
theorem zip_all_segEq {l₁ l₂ : List Seg} (hlen : l₁.length = l₂.length) :
    ((l₁.zip l₂).all fun uc => segEq uc.1 uc.2) = true ↔ l₁ = l₂ := by
  induction l₁ generalizing l₂ with
  | nil =>
      cases l₂ with
      | nil => simp
      | cons b l₂ => simp at hlen
  | cons a l₁ ih =>
      cases l₂ with
      | nil => simp at hlen
      | cons b l₂ =>
          have hlen' : l₁.length = l₂.length := by simpa using hlen
          simp [Bool.and_eq_true, segEq_iff, ih hlen']

/-- C7: `matchNamePath` is `false` whenever either path is
`null`/`undefined` or the lengths differ, and on two present paths it is
`true` exactly when every segment is strictly equal at the same index (that
is, when the segment lists coincide — with no coercion, so `0` and `'0'`
differ); the claim's three examples hold. -/
theorem matchNamePath_spec :
    (∀ q, matchNamePath none q = false)
    ∧ (∀ p, matchNamePath p none = false)
    ∧ (∀ (l₁ l₂ : List Seg), l₁.length ≠ l₂.length →
        matchNamePath (some l₁) (some l₂) = false)
    ∧ (∀ (p q : Option (List Seg)),
        matchNamePath p q = true ↔ ∃ l, p = some l ∧ q = some l)
    ∧ (matchNamePath (some [Seg.str "a", Seg.num 0])
        (some [Seg.str "a", Seg.num 0]) = true)
    ∧ (matchNamePath (some [Seg.str "a", Seg.num 0])
        (some [Seg.str "a", Seg.str "0"]) = false)
    ∧ (matchNamePath (some [Seg.str "a"])
        (some [Seg.str "a", Seg.str "b"]) = false) := by
  refine ⟨?_, ?_, ?_, ?_, by decide, by decide, by decide⟩
  · intro q
    cases q <;> rfl
  · intro p
    cases p <;> rfl
  · intro l₁ l₂ h
    simp [matchNamePath, h]
  · intro p q
    cases p with
    | none => simp [matchNamePath]
    | some l₁ =>
        cases q with
        | none => simp [matchNamePath]
        | some l₂ =>
            by_cases hlen : l₁.length = l₂.length
            · simp [matchNamePath, hlen, zip_all_segEq hlen]
              exact eq_comm
            · simp [matchNamePath, hlen]
              intro hl
              subst hl
              exact hlen rfl

/-- Witness for C7 at concrete inputs: a length mismatch is rejected and a
repeated list is accepted. -/
theorem matchNamePath_spec_witness :
    matchNamePath (some [Seg.num 5]) (some [Seg.num 5, Seg.num 6]) = false
    ∧ matchNamePath (some [Seg.num 5]) (some [Seg.num 5]) = true :=
  ⟨matchNamePath_spec.2.2.1 [Seg.num 5] [Seg.num 5, Seg.num 6] (by decide),
   (matchNamePath_spec.2.2.2.1 (some [Seg.num 5]) (some [Seg.num 5])).mpr
     ⟨[Seg.num 5], rfl, rfl⟩⟩

/-- Lawful boolean equality is symmetric. -/
theorem beq_symm {α : Type} [BEq α] [LawfulBEq α] (i j : α) :
    (i == j) = (j == i) := by
  by_cases h : i = j
  · subst h
    rfl
  · rw [beq_eq_false_iff_ne.mpr h, beq_eq_false_iff_ne.mpr (Ne.symm h)]

/-- Strict equality of shallow property values holds exactly on equal
values. -/
theorem svStrictEq_iff (a b : SVal) : svStrictEq a b = true ↔ a = b := by
  cases a <;> cases b <;> simp [svStrictEq]

/-- Strict equality of shallow property values is symmetric. -/
theorem svStrictEq_symm (a b : SVal) : svStrictEq a b = svStrictEq b a := by
  cases a <;> cases b <;> simp [svStrictEq] <;> exact eq_comm

/-- Strict equality of top-level `isSimilar` arguments is symmetric. -/
theorem simStrictEq_symm (a b : SimVal) : simStrictEq a b = simStrictEq b a := by
  cases a <;> cases b <;> simp [simStrictEq] <;> exact eq_comm

/-- The union-key `every` comparison of `isSimilar` is symmetric in the two
objects. -/
theorem simAll_symm (sp tp : List (String × SVal)) :
    ((sp.map Prod.fst ++ tp.map Prod.fst).dedup).all (fun key =>
      ((getPropS sp key).isFunction && (getPropS tp key).isFunction)
        || svStrictEq (getPropS sp key) (getPropS tp key))
    = ((tp.map Prod.fst ++ sp.map Prod.fst).dedup).all (fun key =>
      ((getPropS tp key).isFunction && (getPropS sp key).isFunction)
        || svStrictEq (getPropS tp key) (getPropS sp key)) := by
  rw [Bool.eq_iff_iff]
  simp only [List.all_eq_true, List.mem_dedup, List.mem_append]
  constructor
  · intro h key hk
    have h' := h key (Or.symm hk)
    rw [Bool.and_comm, svStrictEq_symm] at h'
    exact h'
  · intro h key hk
    have h' := h key (Or.symm hk)
    rw [Bool.and_comm, svStrictEq_symm] at h'
    exact h'

/-- On two non-identical objects, `isSimilar` is exactly the union-key
`every` comparison: all guards fall through. -/
theorem isSimilar_objects {i j : Nat} {sp tp : List (String × SVal)}
    (h : simStrictEq (SimVal.object i sp) (SimVal.object j tp) = false) :
    isSimilar (.object i sp) (.object j tp)
      = ((sp.map Prod.fst ++ tp.map Prod.fst).dedup).all fun key =>
          ((getPropS sp key).isFunction && (getPropS tp key).isFunction)
            || svStrictEq (getPropS sp key) (getPropS tp key) := by
  simp [isSimilar, h, truthySim, simIsObjectType]

/-- C8: for non-identical objects, `isSimilar` is true exactly when, over
the union of both objects' own keys, each key's two values are either both
callable or strictly equal; so distinct functions at a key are tolerated,
differing numbers are not, and nested objects count only when
reference-equal. -/
theorem isSimilar_union_function_tolerant :
    (∀ (i j : Nat) (sp tp : List (String × SVal)),
        simStrictEq (SimVal.object i sp) (SimVal.object j tp) = false →
        (isSimilar (.object i sp) (.object j tp) = true ↔
          ∀ key ∈ sp.map Prod.fst ++ tp.map Prod.fst,
            ((getPropS sp key).isFunction = true
                ∧ (getPropS tp key).isFunction = true)
              ∨ getPropS sp key = getPropS tp key))
    ∧ (isSimilar (.object 0 [("f", SVal.fn 1)])
        (.object 1 [("f", SVal.fn 2)]) = true)
    ∧ (isSimilar (.object 0 [("x", SVal.num 1)])
        (.object 1 [("x", SVal.num 2)]) = false)
    ∧ (isSimilar (.object 0 [("o", SVal.ref 1)])
        (.object 2 [("o", SVal.ref 1)]) = true)
    ∧ (isSimilar (.object 0 [("o", SVal.ref 1)])
        (.object 2 [("o", SVal.ref 3)]) = false) := by
  refine ⟨?_, by decide, by decide, by decide, by decide⟩
  intro i j sp tp h
  rw [isSimilar_objects h, List.all_eq_true]
  simp only [List.mem_dedup, Bool.or_eq_true, Bool.and_eq_true, svStrictEq_iff]

/-- Witness for C8 at a concrete input: two objects with distinct reference
ids carrying distinct functions at the same key are similar. -/
theorem isSimilar_union_function_tolerant_witness :
    isSimilar (.object 0 [("f", SVal.fn 1)]) (.object 1 [("f", SVal.fn 2)])
      = true :=
  (isSimilar_union_function_tolerant.1 0 1 [("f", SVal.fn 1)]
      [("f", SVal.fn 2)] rfl).mpr (by decide)

/-- C10: `isSimilar` is symmetric — every guard and the per-key union test
compare the two arguments symmetrically. -/
theorem isSimilar_symm (a b : SimVal) : isSimilar a b = isSimilar b a := by
  cases a with
  | object i sp =>
      cases b with
      | object j tp =>
          by_cases hij : i = j
          · subst hij
            simp [isSimilar, simStrictEq]
          · have h1 : simStrictEq (SimVal.object i sp) (SimVal.object j tp)
                = false := by simp [simStrictEq, hij]
            have h2 : simStrictEq (SimVal.object j tp) (SimVal.object i sp)
                = false := by simp [simStrictEq, Ne.symm hij]
            rw [isSimilar_objects h1, isSimilar_objects h2]
            exact simAll_symm sp tp
      | undefined => simp [isSimilar, simStrictEq, truthySim, simIsObjectType]
      | null => simp [isSimilar, simStrictEq, truthySim, simIsObjectType]
      | bool c => simp [isSimilar, simStrictEq, truthySim, simIsObjectType]
      | num n => simp [isSimilar, simStrictEq, truthySim, simIsObjectType]
      | str s => simp [isSimilar, simStrictEq, truthySim, simIsObjectType]
      | fn k => simp [isSimilar, simStrictEq, truthySim, simIsObjectType]
  | undefined =>
      cases b <;> simp [isSimilar, simStrictEq, truthySim, simIsObjectType, beq_symm]
  | null =>
      cases b <;> simp [isSimilar, simStrictEq, truthySim, simIsObjectType, beq_symm]
  | bool c =>
      cases b <;> simp [isSimilar, simStrictEq, truthySim, simIsObjectType, beq_symm]
  | num n =>
      cases b <;> simp [isSimilar, simStrictEq, truthySim, simIsObjectType, beq_symm]
  | str s =>
      cases b <;> simp [isSimilar, simStrictEq, truthySim, simIsObjectType, beq_symm]
  | fn k =>
      cases b <;> simp [isSimilar, simStrictEq, truthySim, simIsObjectType, beq_symm]

/-- Inserting at a valid position splits the list at that position. -/
theorem insertIdx_eq_take_cons_drop {α : Type} {l : List α} {n : Nat} (x : α)
    (h : n ≤ l.length) : l.insertIdx n x = l.take n ++ x :: l.drop n := by
  induction l generalizing n with
  | nil =>
      have hn : n = 0 := Nat.le_zero.mp (by simpa using h)
      subst hn
      simp [List.insertIdx_zero]
  | cons a l ih =>
      cases n with
      | zero => simp [List.insertIdx_zero]
      | succ n =>
          simp [List.insertIdx_succ_cons, ih (by simpa using h)]

/-- In-range `move` relocates: it equals removing the element at `moveIndex`
and re-inserting it at `toIndex`. -/
theorem move_in_range {α : Type} (arr : List α) (f t : Nat) (x : α)
    (hf : f < arr.length) (ht : t < arr.length) (hx : arr.get? f = some x) :
    move arr (f : Int) (t : Int) = (arr.eraseIdx f).insertIdx t x := by
  simp only [move, Int.toNat_ofNat]
  split
  · rename_i hg
    exfalso
    omega
  · split
    · rename_i hg hdiff
      have htt : t < f := by omega
      rw [hx, List.eraseIdx_eq_take_drop_succ,
        insertIdx_eq_take_cons_drop x
          (by simp [List.length_append, List.length_take, List.length_drop]; omega)]
      rw [List.take_append_eq_append_take, List.drop_append_eq_append_drop]
      simp only [List.length_take]
      rw [Nat.min_eq_left (Nat.le_of_lt hf),
        Nat.sub_eq_zero_of_le (Nat.le_of_lt htt)]
      simp only [List.take_zero, List.drop_zero, List.append_nil]
      rw [List.take_take, Nat.min_eq_left (Nat.le_of_lt htt), List.drop_take]
      simp [List.append_assoc, Option.toList]
    · split
      · rename_i hg hdiff hdiff2
        have htt : f < t := by omega
        rw [hx, List.eraseIdx_eq_take_drop_succ,
          insertIdx_eq_take_cons_drop x
            (by simp [List.length_append, List.length_take, List.length_drop]; omega)]
        rw [List.take_append_eq_append_take, List.drop_append_eq_append_drop]
        simp only [List.length_take]
        rw [Nat.min_eq_left (Nat.le_of_lt hf)]
        rw [List.take_take, Nat.min_eq_right (Nat.le_of_lt htt)]
        have hdnil : (arr.take f).drop t = [] := by
          rw [List.drop_eq_nil_iff]
          simp [List.length_take]
          omega
        rw [hdnil, List.drop_drop]
        have harith : f + 1 + (t - f) = t + 1 := by omega
        rw [harith]
        simp [List.append_assoc, Option.toList]
      · rename_i hg hdiff hdiff2
        have hft : f = t := by omega
        subst hft
        rw [List.eraseIdx_eq_take_drop_succ,
          insertIdx_eq_take_cons_drop x
            (by simp [List.length_append, List.length_take, List.length_drop]; omega)]
        rw [List.take_append_eq_append_take, List.drop_append_eq_append_drop]
        simp only [List.length_take]
        rw [Nat.min_eq_left (Nat.le_of_lt hf)]
        rw [List.take_take, Nat.min_self, Nat.sub_self]
        have hdnil : (arr.take f).drop f = [] := by
          rw [List.drop_eq_nil_iff]
          simp [List.length_take]
        rw [hdnil, List.drop_zero]
        have hsplit : arr = arr.take f ++ arr.drop f := (List.take_append_drop f arr).symm
        conv_lhs => rw [hsplit, List.drop_eq_getElem_cons hf]
        have hget : arr[f] = x := by
          have := (List.getElem?_eq_some).mp (by simpa using hx)
          obtain ⟨h1, h2⟩ := this
          exact h2
        rw [hget]
        simp [Option.toList]

/-- C6: `move` returns a new array equal to the input with the element at
`from` relocated to `to` and the intervening elements shifted by one
(equivalently: erase at `from`, re-insert at `to`); an out-of-range index
(negative or beyond the last element) or `from === to` returns the array
unchanged, with no error; `move([1,2,3,4], 1, 3)` is `[1,3,4,2]` and
`move([1,2,3], -1, 0)` is `[1,2,3]`.  The embedding is a pure function, so
the input list is never mutated. -/
theorem move_spec :
    (move [1, 2, 3, 4] (1 : Int) 3 = [1, 3, 4, 2])
    ∧ (move [1, 2, 3] (-1 : Int) 0 = [1, 2, 3])
    ∧ (∀ (α : Type) (arr : List α) (i : Int), move arr i i = arr)
    ∧ (∀ (α : Type) (arr : List α) (f t : Int),
        (f < 0 ∨ f ≥ arr.length ∨ t < 0 ∨ t ≥ arr.length) → move arr f t = arr)
    ∧ (∀ (α : Type) (arr : List α) (f t : Nat) (x : α),
        f < arr.length → t < arr.length → arr.get? f = some x →
        move arr (f : Int) (t : Int) = (arr.eraseIdx f).insertIdx t x) := by
  refine ⟨by decide, by decide, ?_, ?_, ?_⟩
  · intro α arr i
    simp only [move]
    split
    · rfl
    · simp
  · intro α arr f t h
    simp only [move]
    split
    · rfl
    · rename_i hg
      exact absurd h hg
  · intro α arr f t x hf ht hx
    exact move_in_range arr f t x hf ht hx

/-- Witness for C6 at concrete inputs: an in-range move relocates by
erase-and-insert, an out-of-range index is a no-op, and equal indices are a
no-op. -/
theorem move_spec_witness :
    (move [10, 20, 30] ((2 : Nat) : Int) ((0 : Nat) : Int)
      = (([10, 20, 30].eraseIdx 2).insertIdx 0 30))
    ∧ move [10, 20, 30] (5 : Int) 0 = [10, 20, 30]
    ∧ move [10, 20, 30] (1 : Int) 1 = [10, 20, 30] :=
  ⟨move_spec.2.2.2.2 Nat [10, 20, 30] 2 0 30 (by decide) (by decide) (by decide),
   move_spec.2.2.2.1 Nat [10, 20, 30] 5 0 (Or.inr (Or.inl (by decide))),
   move_spec.2.2.1 Nat [10, 20, 30] 1⟩
